import Mathlib

/-!
Verification of the semantic-retrieval core of the HR chatbot repository
(`main.py`, class `HRChatbot` and the response helpers).

Python strings are modelled as `List Char`, Python dicts of the fixed employee
shape as structures, floating-point scores as rationals, and the external
collaborators (the sentence-transformer embedder, `faiss.normalize_L2` and the
OpenAI chat-completion call) as opaque functions bundled in a `Collab` record.
Methods that assign to `self` are modelled as state transformers on `HRState`.
-/

/-- Python strings, modelled as lists of characters. -/
abbrev Str : Type := List Char

/-- Coerce a Lean string literal to the `List Char` model. -/
def lit (s : String) : Str := s.toList

/-- `", ".join(xs)` from Python: interleave a separator between the pieces.
An empty list of pieces yields the empty string. -/
def joinSep (sep : Str) : List Str → Str
  | [] => []
  | [a] => a
  | a :: b :: rest => a ++ sep ++ joinSep sep (b :: rest)

/-- The characters removed by Python's `str.strip()` (ASCII whitespace). -/
def isWS (c : Char) : Bool :=
  c = ' ' || c = '\n' || c = '\t' || c = '\r' || c = '\x0b' || c = '\x0c'

/-- Drop the longest suffix of characters satisfying `p` (right companion of
`List.dropWhile`), used to model the trailing half of `str.strip()`. -/
def rdropW (p : Char → Bool) (l : Str) : Str :=
  (l.reverse.dropWhile p).reverse

/-- Python's `str.strip()`: remove leading and trailing whitespace. -/
def stripStr (l : Str) : Str :=
  rdropW isWS (l.dropWhile isWS)

/-- One employee record, the fixed dict shape of `employees_data.json` used by
`main.py` (all required fields present). -/
structure Employee where
  id : Nat
  name : Str
  skills : List Str
  experience_years : Nat
  projects : List Str
  department : Str
  specialization : Str
  certifications : List Str
  availability : Str
deriving DecidableEq, Repr

/-- `HRChatbot.create_employee_text`: the f-string template (note the leading
newline and the 8-space indentation of every line, which come from the
triple-quoted literal) followed by `.strip()`. -/
def create_employee_text (employee : Employee) : Str :=
  let skills_text := joinSep (lit ", ") employee.skills
  let projects_text := joinSep (lit ", ") employee.projects
  let certs_text := joinSep (lit ", ") employee.certifications
  let text :=
    lit "\n        Name: " ++ employee.name ++
    lit "\n        Skills: " ++ skills_text ++
    lit "\n        Experience: " ++ (Nat.repr employee.experience_years).toList ++
    lit " years\n        Projects: " ++ projects_text ++
    lit "\n        Department: " ++ employee.department ++
    lit "\n        Specialization: " ++ employee.specialization ++
    lit "\n        Certifications: " ++ certs_text ++
    lit "\n        Availability: " ++ employee.availability ++
    lit "\n        "
  stripStr text

/-- Embedding vectors; floating-point coordinates are modelled as rationals. -/
abbrev Vec : Type := List ℚ

/-- Inner product used by the `faiss.IndexFlatIP` index: the dot product. -/
def dot (a b : Vec) : ℚ := (List.zipWith (· * ·) a b).sum

/-- The external collaborators consumed by the core, each modelled as an opaque
deterministic function: the sentence-transformer `model.encode` on a single
text, `faiss.normalize_L2` on a single vector, and the OpenAI chat-completion
call mapping a prompt to either a reply or a failure of any kind. -/
structure Collab where
  encode : Str → Vec
  normalizeL2 : Vec → Vec
  chatComplete : Str → Except Unit Str

/-- The vector index: an ordered collection of stored vectors.  The repository
delegates this component to the external `faiss` library
(`faiss.IndexFlatIP`), so its state is the vectors added in insertion order. -/
structure VectorIndex where
  entries : List Vec
deriving DecidableEq

/-- Ranking order on `(score, insertion index)` pairs: higher score first,
ties broken by lower insertion index. -/
def rankLE (a b : ℚ × Nat) : Prop :=
  b.1 < a.1 ∨ (a.1 = b.1 ∧ a.2 ≤ b.2)

instance : DecidableRel rankLE := fun a b =>
  inferInstanceAs (Decidable (b.1 < a.1 ∨ (a.1 = b.1 ∧ a.2 ≤ b.2)))

instance : IsTotal (ℚ × Nat) rankLE where
  total a b := by
    rcases lt_trichotomy a.1 b.1 with h | h | h
    · exact Or.inr (Or.inl h)
    · rcases Nat.le_total a.2 b.2 with h2 | h2
      · exact Or.inl (Or.inr ⟨h, h2⟩)
      · exact Or.inr (Or.inr ⟨h.symm, h2⟩)
    · exact Or.inl (Or.inl h)

instance : IsTrans (ℚ × Nat) rankLE where
  trans a b c hab hbc := by
    rcases hab with hab | ⟨hab, hab2⟩
    · rcases hbc with hbc | ⟨hbc, _⟩
      · exact Or.inl (hbc.trans hab)
      · exact Or.inl (hbc ▸ hab)
    · rcases hbc with hbc | ⟨hbc, hbc2⟩
      · exact Or.inl (hab ▸ hbc)
      · exact Or.inr ⟨hab.trans hbc, hab2.trans hbc2⟩

/-- Modelled from the spec: `VectorIndex.search`.  The repository performs
nearest-neighbor search through the external `faiss` library
(`IndexFlatIP.search`), whose implementation is not part of `src/`; §4.3 of
the spec fixes its contract: exact (exhaustive) search, the score of entry `i`
is the dot product of the query with stored vector `i`, results are sorted by
descending score with ties broken by ascending insertion order, truncated to
`k`, and all entries are returned when `k` is at least the corpus size. -/
def VectorIndex.search (idx : VectorIndex) (q : Vec) (k : Nat) : List (ℚ × Nat) :=
  (List.insertionSort rankLE (idx.entries.enum.map fun p => (dot q p.2, p.1))).take k

/-- The mutable state of the `HRChatbot` object (the fields assigned in
`__init__` and `setup_embeddings`).  The OpenAI availability flag
(`openai_client` together with the `OPENAI_API_KEY` check) is passed to the
response functions as a boolean. -/
structure HRState where
  employees_data : List Employee
  employee_embeddings : Option (List Vec)
  faiss_index : Option VectorIndex
deriving DecidableEq

/-- A search result: the copied employee dict extended with exactly the one
extra key `similarity_score` (line `employee['similarity_score'] = ...`). -/
structure Candidate where
  record : Employee
  similarity_score : ℚ
deriving DecidableEq, Repr

/-- `HRChatbot.setup_embeddings`: on an empty corpus return with no state
change; otherwise normalize every record to text, embed each text, normalize
the embeddings (`faiss.normalize_L2` acts in place, so the stored
`employee_embeddings` and the vectors added to the index are the same
normalized buffers) and build the index over them in corpus order. -/
def setup_embeddings (c : Collab) (s : HRState) : HRState :=
  if s.employees_data.isEmpty then s
  else
    let employee_texts := s.employees_data.map create_employee_text
    let embeddings := (employee_texts.map c.encode).map c.normalizeL2
    { s with
      employee_embeddings := some embeddings
      faiss_index := some ⟨embeddings⟩ }

/-- `HRChatbot.__init__` restricted to the retrieval state: take the loaded
record list and run `setup_embeddings` over the fresh state. -/
def initChatbot (c : Collab) (records : List Employee) : HRState :=
  setup_embeddings c
    { employees_data := records, employee_embeddings := none, faiss_index := none }

/-- The `results` accumulation loop of `HRChatbot.search_employees`
(lines 124–130): pair each returned `(score, idx)` with the employee dict at
position `idx`, guarded by `idx < len(self.employees_data)`, copying the dict
and attaching the score. -/
def search_results (s : HRState) (pairs : List (ℚ × Nat)) : List Candidate :=
  pairs.filterMap fun p =>
    if h : p.2 < s.employees_data.length then
      some { record := s.employees_data[p.2], similarity_score := p.1 }
    else none

/-- `HRChatbot.search_employees`: translated as a state transformer (the
method assigns no `self` field, so the post-state is the pre-state).  An
absent index returns no results; otherwise the query is embedded, normalized,
searched with `top_k`, mapped back to employee dicts, and filtered by the
strict `> 0.3` similarity threshold. -/
def search_employees (c : Collab) (s : HRState) (query : Str) (top_k : Nat) :
    HRState × List Candidate :=
  match s.faiss_index with
  | none => (s, [])
  | some idx =>
    let query_embedding := c.normalizeL2 (c.encode query)
    let results := search_results s (idx.search query_embedding top_k)
    (s, results.filter fun emp => (3 : ℚ) / 10 < emp.similarity_score)

/-- The fixed no-match reply returned by `generate_response` when the
retrieved candidate list is empty. -/
def no_match_message : Str :=
  lit "I couldn't find any employees matching your criteria. Please try a different search query."

/-- One numbered entry of the multi-candidate template (the body of the
`for i, emp in enumerate(employees[:3], 1)` loop, a triple-quoted f-string
ending in a blank line). -/
def tmpl_entry (i : Nat) (emp : Candidate) : Str :=
  let skills_text := joinSep (lit ", ") (emp.record.skills.take 3)
  lit "**" ++ (Nat.repr i).toList ++ lit ". " ++ emp.record.name ++
  lit "** (" ++ (Nat.repr emp.record.experience_years).toList ++
  lit " years experience)\n- Key skills: " ++ skills_text ++
  lit "\n- Specialization: " ++ emp.record.specialization ++
  lit "\n- Availability: " ++ emp.record.availability ++ lit "\n\n"

/-- `HRChatbot.generate_template_response`: for exactly one candidate the
single-candidate narrative (top 5 skills, full project list); otherwise the
numbered list of the first three candidates followed, when more than three
candidates exist, by the `... more candidates` offer. -/
def generate_template_response (query : Str) (employees : List Candidate) : Str :=
  match employees with
  | [emp] =>
    let skills_text := joinSep (lit ", ") (emp.record.skills.take 5)
    let projects_text := joinSep (lit ", ") emp.record.projects
    lit "Based on your query \"" ++ query ++
    lit "\", I found an excellent candidate:\n\n**" ++ emp.record.name ++
    lit "** would be perfect for this role. They have " ++
    (Nat.repr emp.record.experience_years).toList ++
    lit " years of experience and their skills include " ++ skills_text ++
    lit ". \n\nThey have worked on projects like: " ++ projects_text ++
    lit "\n\nDepartment: " ++ emp.record.department ++
    lit "\nSpecialization: " ++ emp.record.specialization ++
    lit "\nCurrent availability: " ++ emp.record.availability ++
    lit "\n\nWould you like more details about their background or see other candidates?"
  | _ =>
    let header :=
      lit "Based on your query \"" ++ query ++ lit "\", I found " ++
      (Nat.repr employees.length).toList ++ lit " excellent candidates:\n\n"
    let listing :=
      ((employees.take 3).enum.map fun p => tmpl_entry (p.1 + 1) p.2).flatten
    let more :=
      if 3 < employees.length then
        lit "\nI found " ++ (Nat.repr (employees.length - 3)).toList ++
        lit " more candidates. Would you like to see them?"
      else []
    header ++ listing ++ more

/-- The per-employee block appended to the OpenAI context string (a
triple-quoted f-string with 16-space indentation). -/
def openai_context_entry (emp : Candidate) : Str :=
  let skills_text := joinSep (lit ", ") emp.record.skills
  let projects_text := joinSep (lit ", ") emp.record.projects
  lit "\n                **" ++ emp.record.name ++ lit "** (" ++
  (Nat.repr emp.record.experience_years).toList ++
  lit " years experience)\n                - Skills: " ++ skills_text ++
  lit "\n                - Projects: " ++ projects_text ++
  lit "\n                - Department: " ++ emp.record.department ++
  lit "\n                - Specialization: " ++ emp.record.specialization ++
  lit "\n                - Availability: " ++ emp.record.availability ++
  lit "\n\n                "

/-- The `context` string built by `generate_openai_response`. -/
def openai_context (employees : List Candidate) : Str :=
  lit "Based on your query, here are the relevant employees:\n\n" ++
  (employees.map openai_context_entry).flatten

/-- The prompt sent to the chat-completion collaborator (a triple-quoted
f-string with 12-space indentation; several lines end in a trailing space). -/
def openai_prompt (query : Str) (employees : List Candidate) : Str :=
  lit "\n            You are an HR assistant helping to find the right employees for projects. \n            A user asked: \"" ++
  query ++ lit "\"\n\n            " ++ openai_context employees ++
  lit "\n\n            Please provide a helpful, natural response recommending the most suitable candidates \n            and explaining why they would be a good fit. Be conversational and highlight their \n            relevant experience and skills.\n            "

/-- `HRChatbot.generate_openai_response`: invoke the chat-completion
collaborator on the constructed prompt; return its reply verbatim on success,
and on an exception of any kind (the bare `except Exception` handler) fall
back to `generate_template_response` on the same query and candidates. -/
def generate_openai_response (c : Collab) (query : Str) (employees : List Candidate) : Str :=
  match c.chatComplete (openai_prompt query employees) with
  | Except.ok reply => reply
  | Except.error _ => generate_template_response query employees

/-- `HRChatbot.generate_response`: empty candidate list yields the fixed
no-match message; otherwise the OpenAI path when the client and key are
available, else the template path. -/
def generate_response (c : Collab) (openai_available : Bool) (query : Str)
    (relevant_employees : List Candidate) : Str :=
  if relevant_employees.isEmpty then no_match_message
  else if openai_available then generate_openai_response c query relevant_employees
  else generate_template_response query relevant_employees

/-- The `/chat` endpoint body (`chat_with_bot`): search with `top_k = 5`,
synthesize the reply, return reply and candidates. -/
def chat_with_bot (c : Collab) (openai_available : Bool) (s : HRState)
    (message : Str) : Str × List Candidate :=
  let relevant_employees := (search_employees c s message 5).2
  (generate_response c openai_available message relevant_employees, relevant_employees)

/-- A raw employee record as it sits in the parsed JSON, before any field
access: the three list fields may be absent (`Option.none` models a missing
dict key, whose access raises `KeyError`). -/
structure RawEmployee where
  id : Nat
  name : Str
  skills : Option (List Str)
  experience_years : Nat
  projects : Option (List Str)
  department : Str
  specialization : Str
  certifications : Option (List Str)
  availability : Str
deriving DecidableEq, Repr

/-- The parsed content of `employees_data.json`: a dict with the single key
`employees`. -/
structure RawData where
  employees : List RawEmployee
deriving DecidableEq

/-- `HRChatbot.load_employee_data`: read and parse the JSON file (modelled as
the already-parsed optional payload, `none` standing for the
`FileNotFoundError` branch which returns `[]`) and hand back `data['employees']`
unchanged — the function performs no validation of the record fields. -/
def load_employee_data (data : Option RawData) : List RawEmployee :=
  match data with
  | some d => d.employees
  | none => []

/-- `create_employee_text` applied to a raw record: the very first statements
`employee['skills']`, `employee['projects']`, `employee['certifications']`
raise `KeyError` (modelled as `none`) when the field is absent; otherwise the
record normalizes as `create_employee_text`. -/
def create_employee_text_raw (employee : RawEmployee) : Option Str := do
  let skills ← employee.skills
  let projects ← employee.projects
  let certifications ← employee.certifications
  pure (create_employee_text
    { id := employee.id, name := employee.name, skills := skills
      experience_years := employee.experience_years, projects := projects
      department := employee.department, specialization := employee.specialization
      certifications := certifications, availability := employee.availability })

/-! ### Helper lemmas and concrete fixtures -/

/-- Concrete employee used to exercise the theorems on closed inputs. -/
def eAlice : Employee :=
  { id := 1, name := lit "Alice", skills := [lit "Python", lit "ML"]
    experience_years := 5, projects := [lit "Atlas"]
    department := lit "Engineering", specialization := lit "Backend"
    certifications := [lit "AWS"], availability := lit "available" }

/-- Second concrete employee. -/
def eBob : Employee :=
  { id := 2, name := lit "Bob", skills := [lit "Java"]
    experience_years := 3, projects := [lit "Nimbus"]
    department := lit "Engineering", specialization := lit "Frontend"
    certifications := [], availability := lit "busy" }

/-- Concrete collaborator bundle: a constant embedder, identity vector
normalization, and a chat-completion call that always fails. -/
def cFix : Collab :=
  { encode := fun _ => [1], normalizeL2 := fun v => v
    chatComplete := fun _ => Except.error () }

/-- Pairwise holds for the conjunction when it holds for each conjunct. -/
theorem pairwise_and {α : Type} {R S : α → α → Prop} :
    ∀ {l : List α}, l.Pairwise R → l.Pairwise S →
      l.Pairwise fun a b => R a b ∧ S a b
  | [], _, _ => List.Pairwise.nil
  | _ :: _, List.Pairwise.cons hR hRt, List.Pairwise.cons hS hSt =>
    List.Pairwise.cons (fun b hb => ⟨hR b hb, hS b hb⟩) (pairwise_and hRt hSt)

/-- C2: once the retrieved candidate list is non-empty, a failure of any kind
from the chat-completion collaborator makes `generate_response` return the
template response for the same query and candidates, and never an error. -/
theorem generation_failure_falls_back (c : Collab) (avail : Bool) (query : Str)
    (emps : List Candidate) (e : Unit)
    (hne : emps ≠ [])
    (herr : c.chatComplete (openai_prompt query emps) = Except.error e) :
    generate_response c avail query emps = generate_template_response query emps := by
  unfold generate_response
  rw [if_neg (by simpa using hne)]
  cases avail
  · simp
  · simp [generate_openai_response, herr]

/-- Closed instance of `generation_failure_falls_back`. -/
theorem generation_failure_falls_back_witness :
    generate_response cFix true (lit "need ML") [⟨eAlice, 1⟩] =
      generate_template_response (lit "need ML") [⟨eAlice, 1⟩] :=
  generation_failure_falls_back cFix true (lit "need ML") [⟨eAlice, 1⟩] ()
    (by simp) rfl

/-- C5: building from the empty record set succeeds and leaves the index
unbuilt, and every query on such a state (or on any state whose index was
never built) returns the fixed no-match message and the empty candidate list,
whatever the query text. -/
theorem empty_corpus_query (c : Collab) (avail : Bool) (q : Str) :
    chat_with_bot c avail (initChatbot c []) q = (no_match_message, []) ∧
    ∀ s : HRState, s.faiss_index = none →
      chat_with_bot c avail s q = (no_match_message, []) := by
  constructor
  · rfl
  · intro s h
    unfold chat_with_bot search_employees
    rw [h]
    rfl

/-- Closed instance of `empty_corpus_query` on a state with no index. -/
theorem empty_corpus_query_witness :
    chat_with_bot cFix false ⟨[eAlice], none, none⟩ (lit "anything") =
      (no_match_message, []) :=
  (empty_corpus_query cFix false (lit "anything")).2 ⟨[eAlice], none, none⟩ rfl

/-- C8: with one deterministic collaborator bundle, building the index twice
from equal record sets (in the same order) and issuing equal query texts with
equal `top_k` yields identical ranked candidate lists. -/
theorem deterministic_rebuild (c : Collab) (r₁ r₂ : List Employee)
    (q₁ q₂ : Str) (k₁ k₂ : Nat) (hr : r₁ = r₂) (hq : q₁ = q₂) (hk : k₁ = k₂) :
    (search_employees c (initChatbot c r₁) q₁ k₁).2 =
      (search_employees c (initChatbot c r₂) q₂ k₂).2 := by
  subst hr hq hk
  rfl

/-- Closed instance of `deterministic_rebuild`. -/
theorem deterministic_rebuild_witness :
    (search_employees cFix (initChatbot cFix [eAlice, eBob]) (lit "python") 5).2 =
      (search_employees cFix (initChatbot cFix [eAlice, eBob]) (lit "python") 5).2 :=
  deterministic_rebuild cFix [eAlice, eBob] [eAlice, eBob] (lit "python")
    (lit "python") 5 5 rfl rfl rfl

/-- C10: a query leaves the chatbot state (corpus, stored embeddings, index)
unchanged, and every returned candidate is its source corpus record extended
with exactly the one extra `similarity_score` field; the corpus record itself
(of type `Employee`) never carries a score. -/
theorem search_frame_and_copy (c : Collab) (s : HRState) (q : Str) (k : Nat) :
    (search_employees c s q k).1 = s ∧
    ∀ cand ∈ (search_employees c s q k).2,
      ∃ i, ∃ h : i < s.employees_data.length, cand.record = s.employees_data[i] := by
  unfold search_employees
  cases hidx : s.faiss_index with
  | none => exact ⟨rfl, by simp⟩
  | some idx =>
    refine ⟨rfl, ?_⟩
    intro cand hcand
    simp only [List.mem_filter] at hcand
    have hres := hcand.1
    unfold search_results at hres
    rw [List.mem_filterMap] at hres
    obtain ⟨p, _, hp⟩ := hres
    by_cases h : p.2 < s.employees_data.length
    · rw [dif_pos h] at hp
      refine ⟨p.2, h, ?_⟩
      cases hp
      rfl
    · rw [dif_neg h] at hp
      cases hp

/-- Closed instance of `search_frame_and_copy`. -/
theorem search_frame_and_copy_witness :
    (search_employees cFix (initChatbot cFix [eAlice]) (lit "q") 3).1 =
        initChatbot cFix [eAlice] ∧
    ∃ i, ∃ h : i < (initChatbot cFix [eAlice]).employees_data.length,
      (Candidate.mk eAlice 1).record = (initChatbot cFix [eAlice]).employees_data[i] :=
  ⟨(search_frame_and_copy cFix (initChatbot cFix [eAlice]) (lit "q") 3).1,
    (search_frame_and_copy cFix (initChatbot cFix [eAlice]) (lit "q") 3).2
      ⟨eAlice, 1⟩ (by
        have hres : (search_employees cFix (initChatbot cFix [eAlice]) (lit "q") 3).2 =
            [⟨eAlice, 1⟩] := by
          simp [search_employees, initChatbot, setup_embeddings, search_results,
            VectorIndex.search, cFix, dot, rankLE]
          norm_num
        rw [hres]
        exact List.mem_singleton.mpr rfl)⟩

/-- The score/index pairs produced by `VectorIndex.search` carry pairwise
distinct insertion indices and are sorted: scores non-increasing, equal
scores ordered by ascending insertion index. -/
theorem search_pairwise (idx : VectorIndex) (q : Vec) (k : Nat) :
    (idx.search q k).Pairwise fun a b => b.1 ≤ a.1 ∧ (a.1 = b.1 → a.2 < b.2) := by
  unfold VectorIndex.search
  set base := idx.entries.enum.map fun p => (dot q p.2, p.1) with hbase
  have hsorted : (List.insertionSort rankLE base).Pairwise rankLE :=
    List.sorted_insertionSort rankLE base
  have hperm : List.Perm (List.insertionSort rankLE base) base :=
    List.perm_insertionSort rankLE base
  have hmap : base.map Prod.snd = List.range idx.entries.length := by
    rw [hbase, List.map_map]
    exact List.enum_map_fst idx.entries
  have hnodup : ((List.insertionSort rankLE base).map Prod.snd).Nodup :=
    ((hperm.map Prod.snd).nodup_iff).mpr (hmap ▸ List.nodup_range _)
  have hne : (List.insertionSort rankLE base).Pairwise fun a b => a.2 ≠ b.2 :=
    List.pairwise_map.mp hnodup
  have hcomb := pairwise_and hsorted hne
  have htarget : (List.insertionSort rankLE base).Pairwise
      fun a b : ℚ × Nat => b.1 ≤ a.1 ∧ (a.1 = b.1 → a.2 < b.2) := by
    refine hcomb.imp ?_
    rintro a b ⟨hab | ⟨heq, hle⟩, hne2⟩
    · exact ⟨le_of_lt hab, fun h => absurd (h ▸ hab) (lt_irrefl _)⟩
    · exact ⟨le_of_eq heq.symm, fun _ => lt_of_le_of_ne hle hne2⟩
  exact htarget.sublist (List.take_sublist k _)

/-- C4: the sequence returned by the index search is sorted by non-increasing
similarity score, and entries with equal scores appear in ascending original
insertion order. -/
theorem search_sorted_desc (idx : VectorIndex) (q : Vec) (k : Nat) :
    (idx.search q k).Pairwise
      fun a b => b.1 ≤ a.1 ∧ (a.1 = b.1 → a.2 < b.2) :=
  search_pairwise idx q k

/-- C3: when `k` is at least the number of indexed entries, the search result
lists every indexed entry exactly once — its indices are a permutation of all
insertion indices (no duplicates, no omissions, no error). -/
theorem search_k_ge_size_all_entries (idx : VectorIndex) (q : Vec) (k : Nat)
    (hk : idx.entries.length ≤ k) :
    List.Perm ((idx.search q k).map Prod.snd) (List.range idx.entries.length) := by
  unfold VectorIndex.search
  set base := idx.entries.enum.map fun p => (dot q p.2, p.1) with hbase
  have hperm : List.Perm (List.insertionSort rankLE base) base :=
    List.perm_insertionSort rankLE base
  have hlen : (List.insertionSort rankLE base).length = idx.entries.length := by
    rw [hperm.length_eq, hbase, List.length_map, List.enum_length]
  rw [List.take_of_length_le (le_trans (le_of_eq hlen) hk)]
  have hmap : base.map Prod.snd = List.range idx.entries.length := by
    rw [hbase, List.map_map]
    exact List.enum_map_fst idx.entries
  exact hmap ▸ hperm.map Prod.snd

/-- Closed instance of `search_k_ge_size_all_entries` with two entries and
`k = 3`. -/
theorem search_k_ge_size_all_entries_witness :
    List.Perm (((VectorIndex.mk [[1], [2]]).search [1] 3).map Prod.snd)
      (List.range (VectorIndex.mk [[1], [2]]).entries.length) :=
  search_k_ge_size_all_entries (VectorIndex.mk [[1], [2]]) [1] 3 (by decide)

/-- C1: every candidate returned by `search_employees` has similarity score
strictly above the default threshold `0.3`; the returned list is in
non-increasing score order; and it is a sublist (order-preserving selection)
of the unfiltered search results. -/
theorem threshold_filter_strict (c : Collab) (s : HRState) (q : Str) (k : Nat) :
    (∀ cand ∈ (search_employees c s q k).2,
        (3 : ℚ) / 10 < cand.similarity_score) ∧
    (search_employees c s q k).2.Pairwise
      (fun a b => b.similarity_score ≤ a.similarity_score) ∧
    ∀ idx, s.faiss_index = some idx →
      (search_employees c s q k).2.Sublist
        (search_results s (idx.search (c.normalizeL2 (c.encode q)) k)) := by
  unfold search_employees
  cases hidx : s.faiss_index with
  | none =>
    refine ⟨by simp, List.Pairwise.nil, ?_⟩
    intro idx h
    cases h
  | some idx =>
    refine ⟨?_, ?_, ?_⟩
    · intro cand hcand
      simp only [List.mem_filter, decide_eq_true_eq] at hcand
      exact hcand.2
    · have hpairs := search_pairwise idx (c.normalizeL2 (c.encode q)) k
      have hres : (search_results s (idx.search (c.normalizeL2 (c.encode q)) k)).Pairwise
          fun a b : Candidate => b.similarity_score ≤ a.similarity_score := by
        unfold search_results
        rw [List.pairwise_filterMap]
        refine hpairs.imp ?_
        intro a b hab x hx y hy
        by_cases ha : a.2 < s.employees_data.length
        · rw [dif_pos ha] at hx
          by_cases hb : b.2 < s.employees_data.length
          · rw [dif_pos hb] at hy
            cases hx
            cases hy
            exact hab.1
          · rw [dif_neg hb] at hy
            cases hy
        · rw [dif_neg ha] at hx
          cases hx
      exact hres.sublist (List.filter_sublist _)
    · intro idx' h
      rw [Option.some.injEq] at h
      subst h
      exact List.filter_sublist _

/-- Closed instance of `threshold_filter_strict`: the threshold bound at a
concrete returned candidate and the sublist relation at a concrete index. -/
theorem threshold_filter_strict_witness :
    (3 : ℚ) / 10 < (Candidate.mk eAlice 1).similarity_score ∧
    (search_employees cFix (initChatbot cFix [eAlice]) (lit "q") 3).2.Sublist
      (search_results (initChatbot cFix [eAlice])
        (VectorIndex.search ⟨[[1]]⟩ (cFix.normalizeL2 (cFix.encode (lit "q"))) 3)) := by
  constructor
  · refine (threshold_filter_strict cFix (initChatbot cFix [eAlice]) (lit "q") 3).1
      ⟨eAlice, 1⟩ ?_
    have hres : (search_employees cFix (initChatbot cFix [eAlice]) (lit "q") 3).2 =
        [⟨eAlice, 1⟩] := by
      simp [search_employees, initChatbot, setup_embeddings, search_results,
        VectorIndex.search, cFix, dot, rankLE]
      norm_num
    rw [hres]
    exact List.mem_singleton.mpr rfl
  · exact (threshold_filter_strict cFix (initChatbot cFix [eAlice]) (lit "q") 3).2.2
      ⟨[[1]]⟩ rfl

/-- An infix of the right part of an append is an infix of the append. -/
theorem inf_left {α : Type} (x : List α) {m y : List α} (h : m <:+: y) :
    m <:+: x ++ y := by
  obtain ⟨s, t, rfl⟩ := h
  exact ⟨x ++ s, t, by simp [List.append_assoc]⟩

/-- An infix of the left part of an append is an infix of the append. -/
theorem inf_right {α : Type} {m x : List α} (y : List α) (h : m <:+: x) :
    m <:+: x ++ y := by
  obtain ⟨s, t, rfl⟩ := h
  exact ⟨s, t ++ y, by simp [List.append_assoc]⟩

/-- Every member of a list of lists is an infix of its flattening. -/
theorem inf_of_mem_flatten {α : Type} {x : List α} :
    ∀ {L : List (List α)}, x ∈ L → x <:+: L.flatten
  | [], h => absurd h (List.not_mem_nil x)
  | a :: t, h => by
    rcases List.mem_cons.mp h with rfl | h2
    · exact inf_right _ List.infix_rfl
    · exact inf_left _ (inf_of_mem_flatten h2)

/-- Every piece passed to `joinSep` is an infix of the joined string. -/
theorem inf_of_mem_joinSep (sep : Str) :
    ∀ {l : List Str} {x : Str}, x ∈ l → x <:+: joinSep sep l
  | [], _, h => absurd h (List.not_mem_nil _)
  | [_], _, h => by
    rcases List.mem_singleton.mp h with rfl
    exact List.infix_rfl
  | _ :: _ :: _, _, h => by
    rcases List.mem_cons.mp h with rfl | h2
    · exact inf_right _ (inf_right _ List.infix_rfl)
    · exact inf_left _ (inf_of_mem_joinSep sep h2)

/-- A list is an infix of anything it ends (a suffix of an append). -/
theorem suffix_infix {α : Type} (x m : List α) : m <:+: x ++ m :=
  ⟨x, [], by simp⟩

/-- C7: shape of the template path.  Exactly one candidate yields the
single-candidate narrative containing the name, the experience figure, the
first (at most) 5 skills, the full project list, department, specialization
and availability; more than one candidate yields the numbered list of the
first at most 3 candidates; more than three candidates adds the remainder
count and the offer to show more. -/
theorem template_response_shape (query : Str) (emps : List Candidate) :
    (∀ e, emps = [e] →
      e.record.name <:+: generate_template_response query emps ∧
      (Nat.repr e.record.experience_years).toList <:+: generate_template_response query emps ∧
      joinSep (lit ", ") (e.record.skills.take 5) <:+: generate_template_response query emps ∧
      joinSep (lit ", ") e.record.projects <:+: generate_template_response query emps ∧
      e.record.department <:+: generate_template_response query emps ∧
      e.record.specialization <:+: generate_template_response query emps ∧
      e.record.availability <:+: generate_template_response query emps) ∧
    (1 < emps.length →
      ∀ p ∈ (emps.take 3).enum,
        (lit "**" ++ (Nat.repr (p.1 + 1)).toList ++ lit ". " ++ p.2.record.name ++ lit "**")
          <:+: generate_template_response query emps) ∧
    (3 < emps.length →
      (lit "\nI found " ++ (Nat.repr (emps.length - 3)).toList ++
          lit " more candidates. Would you like to see them?")
        <:+: generate_template_response query emps) := by
  refine ⟨?_, ?_, ?_⟩
  · rintro e rfl
    have hr : generate_template_response query [e] =
        lit "Based on your query \"" ++ query ++
        lit "\", I found an excellent candidate:\n\n**" ++ e.record.name ++
        lit "** would be perfect for this role. They have " ++
        (Nat.repr e.record.experience_years).toList ++
        lit " years of experience and their skills include " ++
        joinSep (lit ", ") (e.record.skills.take 5) ++
        lit ". \n\nThey have worked on projects like: " ++
        joinSep (lit ", ") e.record.projects ++
        lit "\n\nDepartment: " ++ e.record.department ++
        lit "\nSpecialization: " ++ e.record.specialization ++
        lit "\nCurrent availability: " ++ e.record.availability ++
        lit "\n\nWould you like more details about their background or see other candidates?" :=
      rfl
    rw [hr]
    refine ⟨?_, ?_, ?_, ?_, ?_, ?_, ?_⟩
    · exact inf_right _ (inf_right _ (inf_right _ (inf_right _ (inf_right _ (inf_right _
        (inf_right _ (inf_right _ (inf_right _ (inf_right _ (inf_right _ (inf_right _
        (inf_right _ (inf_left _ List.infix_rfl)))))))))))))
    · exact inf_right _ (inf_right _ (inf_right _ (inf_right _ (inf_right _ (inf_right _
        (inf_right _ (inf_right _ (inf_right _ (inf_right _ (inf_right _
        (inf_left _ List.infix_rfl)))))))))))
    · exact inf_right _ (inf_right _ (inf_right _ (inf_right _ (inf_right _ (inf_right _
        (inf_right _ (inf_right _ (inf_right _ (inf_left _ List.infix_rfl)))))))))
    · exact inf_right _ (inf_right _ (inf_right _ (inf_right _ (inf_right _ (inf_right _
        (inf_right _ (inf_left _ List.infix_rfl)))))))
    · exact inf_right _ (inf_right _ (inf_right _ (inf_right _ (inf_right _
        (inf_left _ List.infix_rfl)))))
    · exact inf_right _ (inf_right _ (inf_right _ (inf_left _ List.infix_rfl)))
    · exact inf_right _ (inf_left _ List.infix_rfl)
  · intro hlen p hp
    obtain ⟨e1, e2, t, rfl⟩ : ∃ e1 e2 t, emps = e1 :: e2 :: t := by
      match emps, hlen with
      | [], hlen => exact absurd hlen (by simp)
      | [x], hlen => exact absurd hlen (by simp)
      | x :: y :: t, _ => exact ⟨x, y, t, rfl⟩
    have hr : generate_template_response query (e1 :: e2 :: t) =
        (lit "Based on your query \"" ++ query ++ lit "\", I found " ++
          (Nat.repr (e1 :: e2 :: t).length).toList ++ lit " excellent candidates:\n\n") ++
        (((e1 :: e2 :: t).take 3).enum.map fun p => tmpl_entry (p.1 + 1) p.2).flatten ++
        (if 3 < (e1 :: e2 :: t).length then
          lit "\nI found " ++ (Nat.repr ((e1 :: e2 :: t).length - 3)).toList ++
            lit " more candidates. Would you like to see them?"
         else []) := rfl
    rw [hr]
    have htm : tmpl_entry (p.1 + 1) p.2 =
        lit "**" ++ (Nat.repr (p.1 + 1)).toList ++ lit ". " ++ p.2.record.name ++
        lit "** (" ++ (Nat.repr p.2.record.experience_years).toList ++
        lit " years experience)\n- Key skills: " ++
        joinSep (lit ", ") (p.2.record.skills.take 3) ++
        lit "\n- Specialization: " ++ p.2.record.specialization ++
        lit "\n- Availability: " ++ p.2.record.availability ++ lit "\n\n" := rfl
    have hlit : lit "** (" = lit "**" ++ lit " (" := rfl
    rw [hlit] at htm
    simp only [← List.append_assoc] at htm
    have hentry : (lit "**" ++ (Nat.repr (p.1 + 1)).toList ++ lit ". " ++
        p.2.record.name ++ lit "**") <:+: tmpl_entry (p.1 + 1) p.2 := by
      rw [htm]
      exact inf_right _ (inf_right _ (inf_right _ (inf_right _ (inf_right _ (inf_right _
        (inf_right _ (inf_right _ (inf_right _ List.infix_rfl))))))))
    have h2 : tmpl_entry (p.1 + 1) p.2 <:+:
        (((e1 :: e2 :: t).take 3).enum.map fun p => tmpl_entry (p.1 + 1) p.2).flatten :=
      inf_of_mem_flatten (List.mem_map.mpr ⟨p, hp, rfl⟩)
    exact (hentry.trans h2).trans (List.infix_append _ _ _)
  · intro hlen
    obtain ⟨e1, e2, t, rfl⟩ : ∃ e1 e2 t, emps = e1 :: e2 :: t := by
      match emps, hlen with
      | [], hlen => exact absurd hlen (by simp)
      | [x], hlen => exact absurd hlen (by simp)
      | x :: y :: t, _ => exact ⟨x, y, t, rfl⟩
    have hr : generate_template_response query (e1 :: e2 :: t) =
        (lit "Based on your query \"" ++ query ++ lit "\", I found " ++
          (Nat.repr (e1 :: e2 :: t).length).toList ++ lit " excellent candidates:\n\n") ++
        (((e1 :: e2 :: t).take 3).enum.map fun p => tmpl_entry (p.1 + 1) p.2).flatten ++
        (if 3 < (e1 :: e2 :: t).length then
          lit "\nI found " ++ (Nat.repr ((e1 :: e2 :: t).length - 3)).toList ++
            lit " more candidates. Would you like to see them?"
         else []) := rfl
    rw [hr, if_pos hlen]
    exact suffix_infix _ _

/-- Closed instance of `template_response_shape`: the single-candidate arm at
one candidate, and the numbered-list and remainder-count arms at four
candidates. -/
theorem template_response_shape_witness :
    eAlice.name <:+: generate_template_response (lit "find ml") [⟨eAlice, 1⟩] ∧
    (lit "**" ++ (Nat.repr 1).toList ++ lit ". " ++ eAlice.name ++ lit "**") <:+:
      generate_template_response (lit "q2")
        [⟨eAlice, 1⟩, ⟨eBob, 1⟩, ⟨eAlice, 1⟩, ⟨eBob, 1⟩] ∧
    (lit "\nI found " ++
        (Nat.repr (([⟨eAlice, 1⟩, ⟨eBob, 1⟩, ⟨eAlice, 1⟩, ⟨eBob, (1 : ℚ)⟩] :
          List Candidate).length - 3)).toList ++
        lit " more candidates. Would you like to see them?") <:+:
      generate_template_response (lit "q2")
        [⟨eAlice, 1⟩, ⟨eBob, 1⟩, ⟨eAlice, 1⟩, ⟨eBob, 1⟩] :=
  ⟨((template_response_shape (lit "find ml") [⟨eAlice, 1⟩]).1 ⟨eAlice, 1⟩ rfl).1,
    (template_response_shape (lit "q2")
        [⟨eAlice, 1⟩, ⟨eBob, 1⟩, ⟨eAlice, 1⟩, ⟨eBob, 1⟩]).2.1 (by decide)
      (0, ⟨eAlice, 1⟩) (List.mem_cons_self _ _),
    (template_response_shape (lit "q2")
        [⟨eAlice, 1⟩, ⟨eBob, 1⟩, ⟨eAlice, 1⟩, ⟨eBob, 1⟩]).2.2 (by decide)⟩

/-- `dropWhile` keeps something when the list has an element failing `p`. -/
theorem dropWhile_ne_nil_of_mem {p : Char → Bool} :
    ∀ {l : Str} {c : Char}, c ∈ l → p c = false → l.dropWhile p ≠ []
  | a :: t, c, hc, hpc => by
    rw [List.dropWhile_cons]
    rcases List.mem_cons.mp hc with rfl | h2
    · rw [hpc]
      simp
    · by_cases hpa : p a
      · rw [if_pos hpa]
        exact dropWhile_ne_nil_of_mem h2 hpc
      · rw [if_neg hpa]
        simp

/-- `rdropW` distributes over an append whose right part keeps a character. -/
theorem rdropW_append_of_mem {p : Char → Bool} {y : Str} {c : Char} (x : Str)
    (hc : c ∈ y) (hpc : p c = false) :
    rdropW p (x ++ y) = x ++ rdropW p y := by
  unfold rdropW
  rw [List.reverse_append, List.dropWhile_append,
    if_neg (by simpa using dropWhile_ne_nil_of_mem (List.mem_reverse.mpr hc) hpc),
    List.reverse_append, List.reverse_reverse]

/-- `rdropW` passes over a head character failing `p`. -/
theorem rdropW_cons_neg {p : Char → Bool} {c : Char} (hpc : p c = false)
    (l : Str) : rdropW p (c :: l) = c :: rdropW p l := by
  unfold rdropW
  rw [List.reverse_cons, List.dropWhile_append]
  by_cases h : (l.reverse.dropWhile p).isEmpty
  · rw [if_pos h]
    have h0 : l.reverse.dropWhile p = [] := by simpa using h
    rw [h0]
    simp [List.dropWhile_cons, hpc]
  · rw [if_neg h]
    simp

/-- `rdropW` over `x ++ c :: y` with `c` failing `p` keeps `x ++ c ::` and
recurses on `y`. -/
theorem rdropW_append_cons {p : Char → Bool} (x : Str) (c : Char) (y : Str)
    (hpc : p c = false) :
    rdropW p (x ++ c :: y) = x ++ c :: rdropW p y := by
  rw [rdropW_append_of_mem x (List.mem_cons_self c y) hpc, rdropW_cons_neg hpc]

/-- Appending an all-whitespace tail does not change `rdropW isWS`. -/
theorem rdropW_append_ws (x w : Str) (hw : ∀ a ∈ w, isWS a = true) :
    rdropW isWS (x ++ w) = rdropW isWS x := by
  unfold rdropW
  rw [List.reverse_append,
    List.dropWhile_append_of_pos (fun a ha => hw a (List.mem_reverse.mp ha))]

/-- Stripping leading whitespace from the employee template stops at the
`N` of the `Name:` label. -/
theorem dropWhile_front (X : Str) :
    List.dropWhile isWS (lit "\n        Name: " ++ X) = lit "Name: " ++ X := rfl

/-- C6: record normalization is deterministic and pure (equal records give
equal text); the stripped text lays out the labeled fields in the fixed order
name, skills, experience, projects, department, specialization,
certifications, availability, joining list fields with `", "`; and the text
contains every skill, project and certification string as a substring. -/
theorem create_employee_text_spec (e : Employee) :
    (∀ e₂ : Employee, e = e₂ →
      create_employee_text e = create_employee_text e₂) ∧
    create_employee_text e =
      lit "Name: " ++ e.name ++
      lit "\n        Skills: " ++ joinSep (lit ", ") e.skills ++
      lit "\n        Experience: " ++ (Nat.repr e.experience_years).toList ++
      lit " years\n        Projects: " ++ joinSep (lit ", ") e.projects ++
      lit "\n        Department: " ++ e.department ++
      lit "\n        Specialization: " ++ e.specialization ++
      lit "\n        Certifications: " ++ joinSep (lit ", ") e.certifications ++
      lit "\n        Availability:" ++ rdropW isWS (' ' :: e.availability) ∧
    (∀ sk ∈ e.skills, sk <:+: create_employee_text e) ∧
    (∀ pj ∈ e.projects, pj <:+: create_employee_text e) ∧
    (∀ ct ∈ e.certifications, ct <:+: create_employee_text e) := by
  have hfield : create_employee_text e =
      lit "Name: " ++ e.name ++
      lit "\n        Skills: " ++ joinSep (lit ", ") e.skills ++
      lit "\n        Experience: " ++ (Nat.repr e.experience_years).toList ++
      lit " years\n        Projects: " ++ joinSep (lit ", ") e.projects ++
      lit "\n        Department: " ++ e.department ++
      lit "\n        Specialization: " ++ e.specialization ++
      lit "\n        Certifications: " ++ joinSep (lit ", ") e.certifications ++
      lit "\n        Availability:" ++ rdropW isWS (' ' :: e.availability) := by
    have h1 : create_employee_text e =
        rdropW isWS (List.dropWhile isWS
          (lit "\n        Name: " ++ e.name ++
           lit "\n        Skills: " ++ joinSep (lit ", ") e.skills ++
           lit "\n        Experience: " ++ (Nat.repr e.experience_years).toList ++
           lit " years\n        Projects: " ++ joinSep (lit ", ") e.projects ++
           lit "\n        Department: " ++ e.department ++
           lit "\n        Specialization: " ++ e.specialization ++
           lit "\n        Certifications: " ++ joinSep (lit ", ") e.certifications ++
           lit "\n        Availability: " ++ e.availability ++
           lit "\n        ")) := rfl
    rw [h1]
    have hCright : lit "\n        Name: " ++ e.name ++
        lit "\n        Skills: " ++ joinSep (lit ", ") e.skills ++
        lit "\n        Experience: " ++ (Nat.repr e.experience_years).toList ++
        lit " years\n        Projects: " ++ joinSep (lit ", ") e.projects ++
        lit "\n        Department: " ++ e.department ++
        lit "\n        Specialization: " ++ e.specialization ++
        lit "\n        Certifications: " ++ joinSep (lit ", ") e.certifications ++
        lit "\n        Availability: " ++ e.availability ++
        lit "\n        " =
        lit "\n        Name: " ++ (e.name ++
        (lit "\n        Skills: " ++ (joinSep (lit ", ") e.skills ++
        (lit "\n        Experience: " ++ ((Nat.repr e.experience_years).toList ++
        (lit " years\n        Projects: " ++ (joinSep (lit ", ") e.projects ++
        (lit "\n        Department: " ++ (e.department ++
        (lit "\n        Specialization: " ++ (e.specialization ++
        (lit "\n        Certifications: " ++ (joinSep (lit ", ") e.certifications ++
        (lit "\n        Availability: " ++ (e.availability ++
        lit "\n        "))))))))))))))) := by
      simp only [List.append_assoc]
    rw [hCright, dropWhile_front]
    have hLeft : lit "Name: " ++ (e.name ++
        (lit "\n        Skills: " ++ (joinSep (lit ", ") e.skills ++
        (lit "\n        Experience: " ++ ((Nat.repr e.experience_years).toList ++
        (lit " years\n        Projects: " ++ (joinSep (lit ", ") e.projects ++
        (lit "\n        Department: " ++ (e.department ++
        (lit "\n        Specialization: " ++ (e.specialization ++
        (lit "\n        Certifications: " ++ (joinSep (lit ", ") e.certifications ++
        (lit "\n        Availability: " ++ (e.availability ++
        lit "\n        "))))))))))))))) =
        lit "Name: " ++ e.name ++
        lit "\n        Skills: " ++ joinSep (lit ", ") e.skills ++
        lit "\n        Experience: " ++ (Nat.repr e.experience_years).toList ++
        lit " years\n        Projects: " ++ joinSep (lit ", ") e.projects ++
        lit "\n        Department: " ++ e.department ++
        lit "\n        Specialization: " ++ e.specialization ++
        lit "\n        Certifications: " ++ joinSep (lit ", ") e.certifications ++
        lit "\n        Availability: " ++ e.availability ++
        lit "\n        " := by
      simp only [List.append_assoc]
    rw [hLeft]
    obtain ⟨P, hP⟩ : ∃ P : Str, P =
        lit "Name: " ++ e.name ++
        lit "\n        Skills: " ++ joinSep (lit ", ") e.skills ++
        lit "\n        Experience: " ++ (Nat.repr e.experience_years).toList ++
        lit " years\n        Projects: " ++ joinSep (lit ", ") e.projects ++
        lit "\n        Department: " ++ e.department ++
        lit "\n        Specialization: " ++ e.specialization ++
        lit "\n        Certifications: " ++ joinSep (lit ", ") e.certifications :=
      ⟨_, rfl⟩
    rw [← hP]
    have hws : rdropW isWS
        (((P ++ lit "\n        Availability: ") ++ e.availability) ++ lit "\n        ") =
        rdropW isWS ((P ++ lit "\n        Availability: ") ++ e.availability) :=
      rdropW_append_ws _ _ (by decide)
    rw [hws]
    have hmid : lit "\n        Availability: " ++ e.availability =
        lit "\n        Availability" ++ (':' :: ' ' :: e.availability) := rfl
    have hassoc : (P ++ lit "\n        Availability: ") ++ e.availability =
        (P ++ lit "\n        Availability") ++ (':' :: ' ' :: e.availability) := by
      rw [List.append_assoc, hmid, ← List.append_assoc]
    rw [hassoc]
    have hcons : rdropW isWS
        ((P ++ lit "\n        Availability") ++ (':' :: ' ' :: e.availability)) =
        (P ++ lit "\n        Availability") ++
          (':' :: rdropW isWS (' ' :: e.availability)) :=
      rdropW_append_cons _ _ _ (by decide)
    rw [hcons]
    have hfin : lit "\n        Availability" ++
        (':' :: rdropW isWS (' ' :: e.availability)) =
        lit "\n        Availability:" ++ rdropW isWS (' ' :: e.availability) := rfl
    rw [List.append_assoc, hfin, ← List.append_assoc]
  refine ⟨fun e₂ h => h ▸ rfl, hfield, ?_, ?_, ?_⟩
  · intro sk hsk
    rw [hfield]
    exact inf_right _ (inf_right _ (inf_right _ (inf_right _ (inf_right _ (inf_right _
      (inf_right _ (inf_right _ (inf_right _ (inf_right _ (inf_right _ (inf_right _
      (inf_left _ (inf_of_mem_joinSep (lit ", ") hsk)))))))))))))
  · intro pj hpj
    rw [hfield]
    exact inf_right _ (inf_right _ (inf_right _ (inf_right _ (inf_right _ (inf_right _
      (inf_right _ (inf_right _ (inf_left _ (inf_of_mem_joinSep (lit ", ") hpj)))))))))
  · intro ct hct
    rw [hfield]
    exact inf_right _ (inf_right _ (inf_left _ (inf_of_mem_joinSep (lit ", ") hct)))

/-- Closed instance of `create_employee_text_spec`: purity at `eAlice` and the
substring property for a concrete skill, project and certification. -/
theorem create_employee_text_spec_witness :
    create_employee_text eAlice = create_employee_text eAlice ∧
    lit "Python" <:+: create_employee_text eAlice ∧
    lit "Atlas" <:+: create_employee_text eAlice ∧
    lit "AWS" <:+: create_employee_text eAlice :=
  ⟨(create_employee_text_spec eAlice).1 eAlice rfl,
    (create_employee_text_spec eAlice).2.2.1 (lit "Python")
      (List.mem_cons_self _ _),
    (create_employee_text_spec eAlice).2.2.2.1 (lit "Atlas")
      (List.mem_cons_self _ _),
    (create_employee_text_spec eAlice).2.2.2.2 (lit "AWS")
      (List.mem_cons_self _ _)⟩

/-- A raw record whose `skills` key is absent. -/
def eCarol : RawEmployee :=
  { id := 3, name := lit "Carol", skills := none, experience_years := 2
    projects := some [lit "Payroll"], department := lit "HR"
    specialization := lit "Ops", certifications := some []
    availability := lit "available" }

/-- C9 counterexample: loading a record set that contains a record with an
absent `skills` field succeeds and returns the malformed record unchanged —
`load_employee_data` reports no error at load time. -/
theorem load_no_validation_cex :
    load_employee_data (some ⟨[eCarol]⟩) = [eCarol] := rfl

/-- C9 amended: loading performs no validation and hands the parsed records
back unchanged; a record with an absent list field first errors when it is
normalized during index construction at startup (`employee['skills']` raises
`KeyError`, modelled as `none`) — the absent field is never coerced to an
empty list and such a record never yields a candidate text. -/
theorem missing_list_field_errors_at_normalize :
    (∀ d : RawData, load_employee_data (some d) = d.employees) ∧
    ∀ r : RawEmployee,
      r.skills = none ∨ r.projects = none ∨ r.certifications = none →
      create_employee_text_raw r = none := by
  refine ⟨fun d => rfl, ?_⟩
  intro r h
  cases hs : r.skills with
  | none => simp [create_employee_text_raw, hs]
  | some s =>
    cases hp : r.projects with
    | none => simp [create_employee_text_raw, hs, hp]
    | some p =>
      cases hc : r.certifications with
      | none => simp [create_employee_text_raw, hs, hp, hc]
      | some cl => rcases h with h | h | h <;> simp_all

/-- Closed instance of `missing_list_field_errors_at_normalize`. -/
theorem missing_list_field_errors_at_normalize_witness :
    load_employee_data (some ⟨[eCarol]⟩) = RawData.employees ⟨[eCarol]⟩ ∧
    create_employee_text_raw eCarol = none :=
  ⟨missing_list_field_errors_at_normalize.1 ⟨[eCarol]⟩,
    missing_list_field_errors_at_normalize.2 eCarol (Or.inl rfl)⟩
